import Mathlib

/-!
Verification development for the event-reconciliation layer of the
zelfbut.js client library: the `GuildEmojisUpdate` list-sync action
(`src/client/actions/GuildEmojisUpdate.js`), the generic `Collector`
lifecycle (second file of `src/structures/NewsChannel.js`), and the
message partial resolver `GenericAction.getPayload` / `getMessage`.

JavaScript `Map`s (and the library's `Collection`, which extends `Map`)
are embedded as association lists whose operations mirror `Map`
semantics: lookup returns the entry for the key, `set` overwrites an
existing key in place or appends, `delete` removes the entry with the
key.  A `Map` can never hold two entries with the same key, so theorems
carry the corresponding `Nodup` invariant on the key column where they
need it.  A JavaScript value that may be `undefined` is embedded as an
`Option`.
-/

/-- JS `Map.prototype.get`: the value stored at key `k`, or `none`. -/
def aget {α β : Type} [DecidableEq α] : List (α × β) → α → Option β
  | [], _ => none
  | (k', v) :: rest, k => if k' = k then some v else aget rest k

/-- JS `Map.prototype.set`: overwrite the entry for `k` in place, else append. -/
def aset {α β : Type} [DecidableEq α] : List (α × β) → α → β → List (α × β)
  | [], k, v => [(k, v)]
  | (k', w) :: rest, k, v => if k' = k then (k, v) :: rest else (k', w) :: aset rest k v

/-- JS `Map.prototype.delete`: remove the entry for `k` (at most one exists in a `Map`). -/
def adel {α β : Type} [DecidableEq α] : List (α × β) → α → List (α × β)
  | [], _ => []
  | (k', w) :: rest, k => if k' = k then rest else (k', w) :: adel rest k

/-! ## Emoji list synchronisation (`GuildEmojisUpdateAction.handle`)

Embedding of `src/client/actions/GuildEmojisUpdate.js`.  Emoji
identifiers are `Option Nat`: `none` embeds a payload entry whose `id`
field is `undefined` (in JS, `undefined` is an ordinary `Map` key).
The non-identifier content of an emoji is abstracted to a single `Nat`
field `data`.

The three granular sub-actions the loop delegates to are not among the
provided source files; following the specification they are modelled as:
`GuildEmojiUpdate.handle(cached, emoji)` patches the cached entity to
the incoming payload and emits one "updated" notification carrying
(old, new); `GuildEmojiCreate.handle(guild, emoji)` inserts the new
entity and emits one "created" notification; `GuildEmojiDelete.handle(emoji)`
removes the entity and emits one "deleted" notification.  The entity
equality test `cachedEmoji.equals(emoji, true)` (the `Emoji` class is
also not among the provided files) is kept abstract as a parameter
`eqE` on the cached data and the incoming data. -/

/-- An emoji identifier as read off a raw payload: `none` models a missing
(`undefined`) `id` field. -/
abbrev EmojiId := Option Nat

/-- A raw emoji entry of the `data.emojis` payload list. -/
structure RawEmoji where
  id : EmojiId
  data : Nat
deriving DecidableEq, Repr

/-- A guild's emoji store (`guild.emojis`), a `Collection` keyed by id. -/
abbrev ECache := List (EmojiId × Nat)

/-- A granular notification emitted by the sync loop via the three
sub-actions. -/
inductive Notif where
  | updated (id : EmojiId) (old : Nat) (fresh : Nat)
  | created (id : EmojiId) (data : Nat)
  | deleted (id : EmojiId) (data : Nat)
deriving DecidableEq, Repr

/-- The `for (const emoji of data.emojis)` loop of
`GuildEmojisUpdateAction.handle`, threading the live emoji store `c`
and the pending-deletions snapshot map `d`.  Returns the notifications
emitted by the loop, the store after the loop, and the remaining
deletions map. -/
def syncLoop (eqE : Nat → Nat → Bool) (c d : ECache) : List RawEmoji → List Notif × ECache × ECache
  | [] => ([], c, d)
  | e :: rest =>
    match aget c e.id with
    | some cd =>
      -- cachedEmoji truthy: deletions.delete(emoji.id)
      let d' := adel d e.id
      if eqE cd e.data then
        syncLoop eqE c d' rest
      else
        -- !cachedEmoji.equals(emoji, true): GuildEmojiUpdate.handle(cachedEmoji, emoji)
        let r := syncLoop eqE (aset c e.id e.data) d' rest
        (Notif.updated e.id cd e.data :: r.1, r.2)
    | none =>
      -- Emoji added: GuildEmojiCreate.handle(guild, emoji)
      let r := syncLoop eqE (aset c e.id e.data) d rest
      (Notif.created e.id e.data :: r.1, r.2)

/-- `GuildEmojisUpdateAction.handle` after the guild guard: snapshot the
store into `deletions` (`mappify(guild.emojis.entries())` copies the
entries), run the loop, then delete every emoji remaining in the
snapshot (`GuildEmojiDelete.handle`).  Returns all emitted
notifications in order and the final emoji store. -/
def handleCore (eqE : Nat → Nat → Bool) (c : ECache) (l : List RawEmoji) : List Notif × ECache :=
  let r := syncLoop eqE c c l
  (r.1 ++ r.2.2.map (fun p => Notif.deleted p.1 p.2),
   r.2.2.foldl (fun acc p => adel acc p.1) r.2.1)

/-- The full `handle(data)` including the guard
`if (!guild || !guild.emojis) return;`.  `guilds` embeds
`client.guilds`; a guild whose `emojis` store is absent is a
`some none` entry.  The action returns its notifications and the
updated guilds map; on a failed guard it returns no notifications and
leaves every store untouched. -/
def emojisUpdateHandle (eqE : Nat → Nat → Bool) (guilds : List (EmojiId × Option ECache))
    (gid : EmojiId) (emojis : List RawEmoji) :
    List Notif × List (EmojiId × Option ECache) :=
  match aget guilds gid with
  | none => ([], guilds)
  | some none => ([], guilds)
  | some (some c) =>
    let r := handleCore eqE c emojis
    (r.1, aset guilds gid (some r.2))

/-! ### Pure characterisation of the sync loop

The loop reads the live store while the (spec-modelled) sub-actions
mutate it; when the payload carries each identifier at most once — a
"complete current set", and the only situation the claims quantify
over — every read coincides with a read of the pre-loop store.  The
following pure functions express the emitted trace and the surviving
deletions snapshot directly over the initial store, and the lemmas
below prove the state-threaded loop equal to them. -/

/-- The notifications a single payload entry contributes, read against a
fixed store. -/
def entryNotif (eqE : Nat → Nat → Bool) (c : ECache) (e : RawEmoji) : List Notif :=
  match aget c e.id with
  | some cd => if eqE cd e.data then [] else [Notif.updated e.id cd e.data]
  | none => [Notif.created e.id e.data]

/-- The loop's notifications in payload order, against a fixed store. -/
def loopTrace (eqE : Nat → Nat → Bool) (c : ECache) (l : List RawEmoji) : List Notif :=
  (l.map (entryNotif eqE c)).flatten

/-- Whether some payload entry removes key `k` from the deletions
snapshot: an entry with that id found in the store. -/
def hitBy (c : ECache) (l : List RawEmoji) (k : EmojiId) : Bool :=
  l.any (fun e => decide (e.id = k) && (aget c e.id).isSome)

/-! ### Extracting the ids each notification category carries -/

/-- The id a notification refers to. -/
def notifId : Notif → EmojiId
  | Notif.updated i _ _ => i
  | Notif.created i _ => i
  | Notif.deleted i _ => i

/-- Select the id of an "updated" notification. -/
def updSel : Notif → Option EmojiId
  | Notif.updated i _ _ => some i
  | _ => none

/-- Select the id of a "created" notification. -/
def creSel : Notif → Option EmojiId
  | Notif.created i _ => some i
  | _ => none

/-- Select the id of a "deleted" notification. -/
def delSel : Notif → Option EmojiId
  | Notif.deleted i _ => some i
  | _ => none

/-- The ids of the "updated" notifications of a trace, in order. -/
def updatedIds (t : List Notif) : List EmojiId := t.filterMap updSel

/-- The ids of the "created" notifications of a trace, in order. -/
def createdIds (t : List Notif) : List EmojiId := t.filterMap creSel

/-- The ids of the "deleted" notifications of a trace, in order. -/
def deletedIds (t : List Notif) : List EmojiId := t.filterMap delSel

/-- Whether a notification is an "updated" notification. -/
def isUpdatedN : Notif → Bool
  | Notif.updated _ _ _ => true
  | _ => false

/-- Whether a notification is a "created" notification. -/
def isCreatedN : Notif → Bool
  | Notif.created _ _ => true
  | _ => false

/-- Whether a notification is a "deleted" notification. -/
def isDeletedN : Notif → Bool
  | Notif.deleted _ _ => true
  | _ => false

/-! ### Malformed payload entries (C6) and missing guild (C7) -/

/-! ## Collector lifecycle (`Collector` of `src/structures/NewsChannel.js`)

Embedding of the abstract `Collector` class: `collected` is a
`Collection` (key/value map), `ended` the terminal flag, and the two
timers are embedded as the absolute time at which the currently
scheduled callback would fire (`none` when no callback is scheduled —
a cleared or never-set timer).  `endEmits` counts emissions of the
"end" event and `endReason` records the reason it carried.  The
subclass hooks `handle`/`filter`/`postCheck` are abstract parameters,
as in the source where they are overridden. -/

/-- The subclass hooks and user filter of a collector. -/
structure CHooks (α : Type) where
  handle : α → Option (Nat × Nat)
  filter : α → List (Nat × Nat) → Bool
  postCheck : α → Option String

/-- `CollectorOptions`: `time` and `idle` in milliseconds (`none` for a
falsy option, which schedules no timer). -/
structure COpts where
  time : Option Nat
  idle : Option Nat

/-- The observable state of a `Collector`. -/
structure CState where
  collected : List (Nat × Nat)
  ended : Bool
  timeoutAt : Option Nat
  idleAt : Option Nat
  endEmits : Nat
  endReason : Option String
deriving DecidableEq, Repr

/-- The `Collector` constructor at absolute time `now`: empty
collection, not ended, and each configured option schedules its
one-shot timer (`client.setTimeout(() => this.stop(reason), delay)`). -/
def initCollector (o : COpts) (now : Nat) : CState :=
  { collected := []
    ended := false
    timeoutAt := o.time.map (fun d => now + d)
    idleAt := o.idle.map (fun d => now + d)
    endEmits := 0
    endReason := none }

/-- `Collector.stop(reason)`: `if (this.ended) return;` then clear both
timers, set `ended`, run `cleanup()` (abstract, stateless here) and
emit `end` with the collection and the reason. -/
def stopCollector (s : CState) (reason : String) : CState :=
  if s.ended then s
  else
    { s with
        timeoutAt := none
        idleAt := none
        ended := true
        endEmits := s.endEmits + 1
        endReason := some reason }

/-- The collection phase of `Collector._handle`: `handle(...args)`,
and if it collected and the user filter accepts, store the pair
(`Collection.set`, last-value-wins), emit `collect`, and — only when an
idle timer is scheduled (`if (this._idletimeout)`) — clear it and
schedule a fresh one `options.idle` from now. -/
def collectPhase {α : Type} (hk : CHooks α) (o : COpts) (s : CState) (now : Nat)
    (arg : α) : CState :=
  match hk.handle arg with
  | some kv =>
    if hk.filter arg s.collected then
      { s with
          collected := aset s.collected kv.1 kv.2
          idleAt := if s.idleAt.isSome then o.idle.map (fun d => now + d) else s.idleAt }
    else s
  | none => s

/-- `Collector._handle(...args)`: the collection phase, then
`postCheck(...args)` unconditionally; a non-null reason calls
`this.stop(reason)`. -/
def handleEvent {α : Type} (hk : CHooks α) (o : COpts) (s : CState) (now : Nat)
    (arg : α) : CState :=
  match hk.postCheck arg with
  | some r => stopCollector (collectPhase hk o s now arg) r
  | none => collectPhase hk o s now arg

/-- The scheduled absolute-duration callback firing: it exists only
while the timer is scheduled, and runs `stop('time')`. -/
def fireTime (s : CState) : CState :=
  if s.timeoutAt.isSome then stopCollector s "time" else s

/-- The scheduled idle callback firing: it exists only while the idle
timer is scheduled, and runs `stop('idle')`. -/
def fireIdle (s : CState) : CState :=
  if s.idleAt.isSome then stopCollector s "idle" else s

/-- One external stimulus to a collector: an event delivery at a time,
an explicit `stop(reason)` call, or a timer callback firing. -/
inductive COp (α : Type) where
  | ev (now : Nat) (arg : α)
  | stopCall (reason : String)
  | ftime
  | fidle

/-- Run a collector over a sequence of stimuli. -/
def runOps {α : Type} (hk : CHooks α) (o : COpts) : CState → List (COp α) → CState
  | s, [] => s
  | s, op :: rest =>
    runOps hk o
      (match op with
       | COp.ev now arg => handleEvent hk o s now arg
       | COp.stopCall r => stopCollector s r
       | COp.ftime => fireTime s
       | COp.fidle => fireIdle s) rest

/-- Let wall-clock time advance to `t` with no further event: the
earliest scheduled timer whose fire time has been reached fires (the
first `stop` clears both timers, so at most one ever fires; on an
equal deadline the absolute timer, scheduled first in the constructor,
is first in the event queue). -/
def runTo (s : CState) (t : Nat) : CState :=
  match s.timeoutAt, s.idleAt with
  | none, none => s
  | some a, none => if a ≤ t then stopCollector s "time" else s
  | none, some b => if b ≤ t then stopCollector s "idle" else s
  | some a, some b =>
    if a ≤ b then (if a ≤ t then stopCollector s "time" else s)
    else (if b ≤ t then stopCollector s "idle" else s)

/-- The lifecycle invariant: the "end" event has been emitted exactly
once if the collector has ended and never before, and an ended
collector holds no scheduled timer. -/
def CInv (s : CState) : Prop :=
  s.endEmits = (if s.ended then 1 else 0) ∧
  (s.ended = true → s.timeoutAt = none ∧ s.idleAt = none)

/-- Concrete hooks used by witnesses: always collect, always accept,
never post-end. -/
def hooksU : CHooks Unit :=
  { handle := fun _ => some (1, 1)
    filter := fun _ _ => true
    postCheck := fun _ => none }

/-- Concrete hooks used by witnesses: never collect, post-check ends. -/
def hooksP : CHooks Unit :=
  { handle := fun _ => none
    filter := fun _ _ => true
    postCheck := fun _ => some "done" }

/-- Options with only an idle timeout of 100ms. -/
def optsIdle100 : COpts := { time := none, idle := some 100 }

/-- A concrete already-ended collector state. -/
def endedState : CState :=
  { collected := [(1, 1)]
    ended := true
    timeoutAt := none
    idleAt := none
    endEmits := 1
    endReason := some "user" }

/-! ## Message partial resolution (`GenericAction.getPayload` / `getMessage`)

Embedding of the second file of `src/unnamed/part_001`.  The message
store `channel.messages` and the client channel store are association
lists as above; a JS value that may be `undefined` is an `Option`.
Only the `Message` entity class is modelled (`getMessage` always
passes `cls = Message`, and `getPayload` only constructs when
`cls == Message`). -/

/-- A raw message payload as the resolver receives it; absent
(`undefined`) fields are `none`. -/
structure RawMsg where
  id : Option Nat
  channel_id : Option Nat
  guild_id : Option Nat
  content : Option String
  hasAuthor : Bool
deriving DecidableEq, Repr

/-- The fields of a `Message` the claims observe.  `channel` is the id
of the channel object the constructor received (`none` when
`client.channels.get` found nothing). -/
structure Msg where
  channel : Option Nat
  id : Option Nat
  content : Option String
  hasAuthor : Bool
deriving DecidableEq, Repr

/-- Constructor `new Message(channel, data, client)` restricted to the
modelled fields (`Message#setup`): `this.id = data.id`,
`this.content = data.content || null` (an empty string is falsy and
becomes null), `this.author = data.author ? ... : null`. -/
def buildMessage (channel : Option Nat) (data : RawMsg) : Msg :=
  { channel := channel
    id := data.id
    content :=
      match data.content with
      | some s => if s = "" then none else some s
      | none => none
    hasAuthor := data.hasAuthor }

/-- Getter `Message#partial`:
`typeof this.content !== 'string' || !this.author`. -/
def partialFlag (m : Msg) : Bool := m.content.isNone || !m.hasAuthor

/-- Method `Message#patch(data)` restricted to the modelled fields:
`if ('content' in data) this.content = data.content;`. -/
def patchMessage (m : Msg) (data : RawMsg) : Msg :=
  if data.content.isSome then { m with content := data.content } else m

/-- JS `a || b` on two possibly-absent message ids (absence is the only
falsy value a snowflake id takes here). -/
def jsOr (a b : Option Nat) : Option Nat :=
  match a with
  | some x => some x
  | none => b

/-- Function `GenericAction.getPayload(data, manager, id, partialType,
cache, cls)` specialised to `cls = Message`, the only class this file
passes.  On a store hit the cached instance is returned directly.  On
a miss with the partial type enabled, the inner lookup retries with
`id || data.id`; the source guards a patch call behind
`existing._patch`, but the `Message` class of this repository defines
`patch`, not `_patch`, so that guard is always false and no patch is
applied; with the inner lookup also missing, the entity is built with
`new Message(this.client.channels.get(data.channel_id), data,
this.client)` and stored under `id || entry.id` when `cache` is set.
The function is pure: it performs no network access. -/
def getPayload (partials : List Nat) (channels : List (Option Nat × Nat))
    (manager : List (Option Nat × Msg)) (data : RawMsg) (id : Option Nat)
    (partialType : Nat) (cache : Bool) : Option Msg × List (Option Nat × Msg) :=
  let existing := aget manager id
  if existing.isNone && partials.contains partialType then
    match aget manager (jsOr id data.id) with
    | some m => (some m, manager)
    | none =>
      let entry := buildMessage (aget channels data.channel_id) data
      let manager' := if cache then aset manager (jsOr id entry.id) entry else manager
      (some entry, manager')
  else (existing, manager)

/-- A raw gateway event that references a message. -/
structure RawEvent where
  message_id : Option Nat
  id : Option Nat
  guild_id : Option Nat
  message : Option Msg
deriving DecidableEq, Repr

/-- Tag `PartialTypes.MESSAGE` of `util/Constants` (file not among the
provided sources); its value only matters as a membership token in
`client.options.partials`. -/
def partialTypeMESSAGE : Nat := 0

/-- Function `GenericAction.getMessage(data, channel, cache)`: prefer
the event-attached `data.message`; otherwise resolve
`data.message_id || data.id` through `getPayload` with the minimal
payload `{id, channel_id: channel.id, guild_id: data.guild_id ||
(channel.guild ? channel.guild.id : null)}` against
`channel.messages`.  `channelId` and `channelGuildId` stand for
`channel.id` and the channel's guild id. -/
def getMessage (partials : List Nat) (channels : List (Option Nat × Nat))
    (ev : RawEvent) (channelId : Option Nat) (channelGuildId : Option Nat)
    (messages : List (Option Nat × Msg)) (cache : Bool) :
    Option Msg × List (Option Nat × Msg) :=
  match ev.message with
  | some m => (some m, messages)
  | none =>
    getPayload partials channels messages
      { id := jsOr ev.message_id ev.id
        channel_id := channelId
        guild_id := jsOr ev.guild_id channelGuildId
        content := none
        hasAuthor := false }
      (jsOr ev.message_id ev.id) partialTypeMESSAGE cache

/-! ## Theorems -/

theorem aget_aset_self {α β : Type} [DecidableEq α] (m : List (α × β)) (k : α) (v : β) :
    aget (aset m k v) k = some v := by
  induction m with
  | nil => simp [aget, aset]
  | cons p rest ih =>
    by_cases h : p.1 = k
    · simp [aset, h, aget]
    · simp [aset, h, aget, ih]

theorem aget_aset_ne {α β : Type} [DecidableEq α] (m : List (α × β)) (k j : α) (v : β)
    (h : j ≠ k) : aget (aset m k v) j = aget m j := by
  induction m with
  | nil => simp [aget, aset, Ne.symm h]
  | cons p rest ih =>
    obtain ⟨a, b⟩ := p
    by_cases hk : a = k
    · have haj : a ≠ j := by rw [hk]; exact Ne.symm h
      simp [aset, hk, aget, Ne.symm h, haj]
    · by_cases hj : a = j
      · simp [aset, hk, aget, hj, h]
      · simp [aset, hk, aget, hj, ih]

theorem aget_adel_ne {α β : Type} [DecidableEq α] (m : List (α × β)) (k j : α)
    (h : j ≠ k) : aget (adel m k) j = aget m j := by
  induction m with
  | nil => simp [adel]
  | cons p rest ih =>
    obtain ⟨a, b⟩ := p
    by_cases hk : a = k
    · simp [adel, hk, aget, Ne.symm h]
    · by_cases hj : a = j
      · simp [adel, hk, aget, hj, h]
      · simp [adel, hk, aget, hj, ih]

theorem adel_eq_filter {α β : Type} [DecidableEq α] (m : List (α × β)) (k : α)
    (hm : (m.map Prod.fst).Nodup) :
    adel m k = m.filter (fun p => !decide (p.1 = k)) := by
  induction m with
  | nil => rfl
  | cons p rest ih =>
    obtain ⟨a, b⟩ := p
    simp only [List.map_cons, List.nodup_cons] at hm
    by_cases hk : a = k
    · have hrest : rest.filter (fun q => !decide (q.1 = k)) = rest := by
        apply List.filter_eq_self.2
        intro q hq
        have hq1 : q.1 ≠ k := by
          intro hqk
          apply hm.1
          rw [hk, ← hqk]
          exact List.mem_map_of_mem Prod.fst hq
        simp [hq1]
      simp [adel, hk, List.filter_cons, hrest]
    · simp [adel, hk, List.filter_cons, ih hm.2]

theorem aget_mem_of_nodup {α β : Type} [DecidableEq α] (m : List (α × β)) (p : α × β)
    (hm : (m.map Prod.fst).Nodup) (hp : p ∈ m) : aget m p.1 = some p.2 := by
  induction m with
  | nil => cases hp
  | cons q rest ih =>
    simp only [List.map_cons, List.nodup_cons] at hm
    rcases List.mem_cons.1 hp with hp | hp
    · subst hp
      simp [aget]
    · have hne : q.1 ≠ p.1 := by
        intro h
        exact hm.1 (h ▸ List.mem_map_of_mem Prod.fst hp)
      simp [aget, hne, ih hm.2 hp]

theorem aget_some_mem {α β : Type} [DecidableEq α] (m : List (α × β)) (k : α) (v : β)
    (h : aget m k = some v) : (k, v) ∈ m := by
  induction m with
  | nil => simp [aget] at h
  | cons q rest ih =>
    obtain ⟨a, b⟩ := q
    by_cases hk : a = k
    · simp only [aget, hk, if_true] at h
      injection h with hbv
      subst hk
      subst hbv
      exact List.mem_cons_self _ _
    · simp only [aget, hk, if_false] at h
      exact List.mem_cons_of_mem _ (ih h)

theorem entryNotif_aset (eqE : Nat → Nat → Bool) (c : ECache) (k : EmojiId) (v : Nat)
    (e : RawEmoji) (h : e.id ≠ k) :
    entryNotif eqE (aset c k v) e = entryNotif eqE c e := by
  unfold entryNotif
  rw [aget_aset_ne c k e.id v h]

theorem loopTrace_aset (eqE : Nat → Nat → Bool) (c : ECache) (k : EmojiId) (v : Nat)
    (l : List RawEmoji) (h : ∀ e ∈ l, e.id ≠ k) :
    loopTrace eqE (aset c k v) l = loopTrace eqE c l := by
  unfold loopTrace
  congr 1
  apply List.map_congr_left
  intro e he
  exact entryNotif_aset eqE c k v e (h e he)

theorem hitBy_aset (c : ECache) (k : EmojiId) (v : Nat) :
    ∀ (l : List RawEmoji) (j : EmojiId), (∀ e ∈ l, e.id ≠ k) →
    hitBy (aset c k v) l j = hitBy c l j := by
  intro l
  induction l with
  | nil => intro j _; rfl
  | cons e rest ih =>
    intro j h
    unfold hitBy
    simp only [List.any_cons]
    rw [aget_aset_ne c k e.id v (h e (List.mem_cons_self _ _))]
    have htail := ih j (fun e' he' => h e' (List.mem_cons_of_mem _ he'))
    unfold hitBy at htail
    rw [htail]

/-- Key trace lemma: with no duplicate payload identifiers, the
notifications emitted by the state-threaded loop are exactly the pure
per-entry notifications read against the initial store. -/
theorem syncLoop_fst (eqE : Nat → Nat → Bool) (l : List RawEmoji) :
    ∀ c d : ECache, (l.map RawEmoji.id).Nodup →
    (syncLoop eqE c d l).1 = loopTrace eqE c l := by
  induction l with
  | nil => intro c d _; rfl
  | cons e rest ih =>
    intro c d hl
    simp only [List.map_cons, List.nodup_cons] at hl
    have hrest : ∀ e' ∈ rest, e'.id ≠ e.id := by
      intro e' he' h
      exact hl.1 (h ▸ List.mem_map_of_mem RawEmoji.id he')
    unfold syncLoop loopTrace
    cases hce : aget c e.id with
    | some cd =>
      by_cases heq : eqE cd e.data = true
      · simp only [hce, heq, if_true]
        rw [ih c (adel d e.id) hl.2]
        simp [entryNotif, hce, heq, loopTrace]
      · simp only [hce, Bool.not_eq_true] at heq
        simp only [hce, heq, if_false]
        rw [ih (aset c e.id e.data) (adel d e.id) hl.2]
        rw [loopTrace_aset eqE c e.id e.data rest hrest]
        simp [entryNotif, hce, heq, loopTrace]
    | none =>
      simp only [hce]
      rw [ih (aset c e.id e.data) d hl.2]
      rw [loopTrace_aset eqE c e.id e.data rest hrest]
      simp [entryNotif, hce, loopTrace]

/-- Key deletions lemma: with no duplicate payload identifiers and a
well-formed snapshot map, the deletions surviving the loop are the
snapshot entries whose key no payload entry hit. -/
theorem syncLoop_del (eqE : Nat → Nat → Bool) (l : List RawEmoji) :
    ∀ c d : ECache, (l.map RawEmoji.id).Nodup → (d.map Prod.fst).Nodup →
    (syncLoop eqE c d l).2.2 = d.filter (fun p => !(hitBy c l p.1)) := by
  induction l with
  | nil =>
    intro c d _ _
    simp [syncLoop, hitBy]
  | cons e rest ih =>
    intro c d hl hd
    simp only [List.map_cons, List.nodup_cons] at hl
    have hrest : ∀ e' ∈ rest, e'.id ≠ e.id := by
      intro e' he' h
      exact hl.1 (h ▸ List.mem_map_of_mem RawEmoji.id he')
    have hdel_nodup : ((adel d e.id).map Prod.fst).Nodup := by
      rw [adel_eq_filter d e.id hd]
      exact ((List.filter_sublist d).map Prod.fst).nodup hd
    unfold syncLoop
    cases hce : aget c e.id with
    | some cd =>
      have step : ∀ c' : ECache, (∀ j, hitBy c' rest j = hitBy c rest j) →
          (adel d e.id).filter (fun p => !(hitBy c' rest p.1)) =
          d.filter (fun p => !(hitBy c (e :: rest) p.1)) := by
        intro c' hc'
        rw [adel_eq_filter d e.id hd, List.filter_filter]
        apply List.filter_congr
        intro p _
        rw [hc' p.1]
        have hcons : hitBy c (e :: rest) p.1 = (decide (e.id = p.1) || hitBy c rest p.1) := by
          unfold hitBy
          rw [List.any_cons, hce]
          simp
        rw [hcons, Bool.not_or]
        have h1 : (decide (p.1 = e.id)) = (decide (e.id = p.1)) := by
          by_cases hpe : e.id = p.1
          · simp [hpe]
          · have hpe' : ¬p.1 = e.id := fun hh => hpe hh.symm
            simp [hpe, hpe']
        rw [h1]
        exact Bool.and_comm _ _
      by_cases heq : eqE cd e.data = true
      · simp only [hce, heq, if_true]
        rw [ih c (adel d e.id) hl.2 hdel_nodup]
        exact step c (fun _ => rfl)
      · simp only [hce, Bool.not_eq_true] at heq
        simp only [hce, heq, Bool.false_eq_true, if_false]
        rw [ih (aset c e.id e.data) (adel d e.id) hl.2 hdel_nodup]
        exact step (aset c e.id e.data)
          (fun j => hitBy_aset c e.id e.data rest j hrest)
    | none =>
      simp only [hce]
      rw [ih (aset c e.id e.data) d hl.2 hd]
      have : ∀ p : EmojiId × Nat, (!(hitBy (aset c e.id e.data) rest p.1)) =
          (!(hitBy c (e :: rest) p.1)) := by
        intro p
        rw [hitBy_aset c e.id e.data rest p.1 hrest]
        simp [hitBy, List.any_cons, hce]
      exact List.filter_congr (fun p _ => this p)

/-- The full notification trace of `handle` (after a passing guard):
per-entry update/create notifications in payload order, then one delete
notification per snapshot entry whose id the payload did not carry. -/
theorem handleCore_trace (eqE : Nat → Nat → Bool) (c : ECache) (l : List RawEmoji)
    (hl : (l.map RawEmoji.id).Nodup) (hc : (c.map Prod.fst).Nodup) :
    (handleCore eqE c l).1 =
      loopTrace eqE c l ++
        (c.filter (fun p => !(hitBy c l p.1))).map (fun p => Notif.deleted p.1 p.2) := by
  have h1 := syncLoop_fst eqE l c c hl
  have h2 := syncLoop_del eqE l c c hl hc
  show (syncLoop eqE c c l).1 ++
      ((syncLoop eqE c c l).2.2).map (fun p => Notif.deleted p.1 p.2) = _
  rw [h1, h2]

theorem updatedIds_entry (eqE : Nat → Nat → Bool) (c : ECache) (e : RawEmoji) :
    updatedIds (entryNotif eqE c e) =
      match aget c e.id with
      | some cd => if eqE cd e.data then [] else [e.id]
      | none => [] := by
  unfold entryNotif
  cases aget c e.id with
  | some cd =>
    by_cases h : eqE cd e.data = true
    · simp [h, updatedIds]
    · simp only [Bool.not_eq_true] at h
      simp [h, updatedIds, List.filterMap_cons, updSel]
  | none => simp [updatedIds, List.filterMap_cons, updSel]

theorem createdIds_entry (eqE : Nat → Nat → Bool) (c : ECache) (e : RawEmoji) :
    createdIds (entryNotif eqE c e) =
      match aget c e.id with
      | some _ => []
      | none => [e.id] := by
  unfold entryNotif
  cases aget c e.id with
  | some cd =>
    by_cases h : eqE cd e.data = true
    · simp [h, createdIds]
    · simp only [Bool.not_eq_true] at h
      simp [h, createdIds, List.filterMap_cons, creSel]
  | none => simp [createdIds, List.filterMap_cons, creSel]

theorem deletedIds_entry (eqE : Nat → Nat → Bool) (c : ECache) (e : RawEmoji) :
    deletedIds (entryNotif eqE c e) = [] := by
  unfold entryNotif
  cases aget c e.id with
  | some cd =>
    by_cases h : eqE cd e.data = true
    · simp [h, deletedIds]
    · simp only [Bool.not_eq_true] at h
      simp [h, deletedIds, List.filterMap_cons, delSel]
  | none => simp [deletedIds, List.filterMap_cons, delSel]

theorem mem_updatedIds_loopTrace (eqE : Nat → Nat → Bool) (c : ECache) :
    ∀ (l : List RawEmoji) (x : EmojiId),
    x ∈ updatedIds (loopTrace eqE c l) ↔
      ∃ e ∈ l, e.id = x ∧ ∃ cd, aget c e.id = some cd ∧ eqE cd e.data = false := by
  intro l
  induction l with
  | nil => simp [loopTrace, updatedIds]
  | cons e rest ih =>
    intro x
    unfold loopTrace
    rw [List.map_cons, List.flatten_cons]
    unfold updatedIds
    rw [List.filterMap_append]
    unfold loopTrace updatedIds at ih
    rw [List.mem_append]
    constructor
    · intro h
      rcases h with h | h
      · refine ⟨e, List.mem_cons_self _ _, ?_⟩
        have := updatedIds_entry eqE c e
        unfold updatedIds at this
        rw [this] at h
        cases hce : aget c e.id with
        | some cd =>
          rw [hce] at h
          by_cases heq : eqE cd e.data = true
          · simp [heq] at h
          · simp only [Bool.not_eq_true] at heq
            simp only [heq, Bool.false_eq_true, if_false, List.mem_singleton] at h
            exact ⟨h.symm, cd, rfl, heq⟩
        | none => rw [hce] at h; simp at h
      · rcases (ih x).1 h with ⟨e', he', hx⟩
        exact ⟨e', List.mem_cons_of_mem _ he', hx⟩
    · rintro ⟨e', he', hx, cd, hget, hfalse⟩
      rcases List.mem_cons.1 he' with rfl | he'
      · left
        have := updatedIds_entry eqE c e'
        unfold updatedIds at this
        rw [this, hget]
        simp [hfalse, hx]
      · right
        exact (ih x).2 ⟨e', he', hx, cd, hget, hfalse⟩

theorem mem_createdIds_loopTrace (eqE : Nat → Nat → Bool) (c : ECache) :
    ∀ (l : List RawEmoji) (x : EmojiId),
    x ∈ createdIds (loopTrace eqE c l) ↔
      ∃ e ∈ l, e.id = x ∧ aget c e.id = none := by
  intro l
  induction l with
  | nil => simp [loopTrace, createdIds]
  | cons e rest ih =>
    intro x
    unfold loopTrace
    rw [List.map_cons, List.flatten_cons]
    unfold createdIds
    rw [List.filterMap_append]
    unfold loopTrace createdIds at ih
    rw [List.mem_append]
    constructor
    · intro h
      rcases h with h | h
      · refine ⟨e, List.mem_cons_self _ _, ?_⟩
        have := createdIds_entry eqE c e
        unfold createdIds at this
        rw [this] at h
        cases hce : aget c e.id with
        | some cd => rw [hce] at h; simp at h
        | none =>
          rw [hce] at h
          rw [List.mem_singleton] at h
          exact ⟨h.symm, rfl⟩
      · rcases (ih x).1 h with ⟨e', he', hx⟩
        exact ⟨e', List.mem_cons_of_mem _ he', hx⟩
    · rintro ⟨e', he', hx, hget⟩
      rcases List.mem_cons.1 he' with rfl | he'
      · left
        have := createdIds_entry eqE c e'
        unfold createdIds at this
        rw [this, hget]
        simp [hx]
      · right
        exact (ih x).2 ⟨e', he', hx, hget⟩

theorem deletedIds_loopTrace (eqE : Nat → Nat → Bool) (c : ECache) :
    ∀ l : List RawEmoji, deletedIds (loopTrace eqE c l) = [] := by
  intro l
  induction l with
  | nil => simp [loopTrace, deletedIds]
  | cons e rest ih =>
    unfold loopTrace
    rw [List.map_cons, List.flatten_cons]
    unfold deletedIds
    rw [List.filterMap_append]
    have h1 := deletedIds_entry eqE c e
    unfold deletedIds at h1
    unfold loopTrace deletedIds at ih
    rw [h1, ih]
    rfl

theorem updatedIds_delMap (dl : List (EmojiId × Nat)) :
    updatedIds (dl.map (fun p => Notif.deleted p.1 p.2)) = [] := by
  induction dl with
  | nil => rfl
  | cons p rest ih =>
    unfold updatedIds at *
    rw [List.map_cons, List.filterMap_cons]
    simp [updSel, ih]

theorem createdIds_delMap (dl : List (EmojiId × Nat)) :
    createdIds (dl.map (fun p => Notif.deleted p.1 p.2)) = [] := by
  induction dl with
  | nil => rfl
  | cons p rest ih =>
    unfold createdIds at *
    rw [List.map_cons, List.filterMap_cons]
    simp [creSel, ih]

theorem deletedIds_delMap (dl : List (EmojiId × Nat)) :
    deletedIds (dl.map (fun p => Notif.deleted p.1 p.2)) = dl.map Prod.fst := by
  induction dl with
  | nil => rfl
  | cons p rest ih =>
    unfold deletedIds at *
    rw [List.map_cons, List.filterMap_cons]
    simpa [delSel] using ih

theorem loopTrace_ids_sublist (eqE : Nat → Nat → Bool) (c : ECache) :
    ∀ l : List RawEmoji,
    List.Sublist ((loopTrace eqE c l).map notifId) (l.map RawEmoji.id) := by
  intro l
  induction l with
  | nil => simp [loopTrace]
  | cons e rest ih =>
    unfold loopTrace at *
    rw [List.map_cons, List.flatten_cons, List.map_append, List.map_cons]
    unfold entryNotif
    cases aget c e.id with
    | some cd =>
      by_cases h : eqE cd e.data = true
      · simp only [h, if_true, List.map_nil, List.nil_append]
        exact List.Sublist.cons _ ih
      · simp only [Bool.not_eq_true] at h
        simp only [h, Bool.false_eq_true, if_false, List.map_cons, List.map_nil,
          List.cons_append, List.nil_append]
        exact List.Sublist.cons₂ _ ih
    | none =>
      simp only [List.map_cons, List.map_nil, List.cons_append, List.nil_append]
      exact List.Sublist.cons₂ _ ih

/-- Claim C1: `GuildEmojisUpdate.handle` partitions ids exactly: with cached
set `B` (the emoji store `c`, unique keys) and complete incoming list
`l` (unique ids), an "updated" notification is emitted exactly for the
ids in both whose representations the equality test rejects, a
"created" notification exactly for the incoming ids not cached, a
"deleted" notification exactly for the cached ids that no incoming
entry carries — so, deletions being computed from the pre-loop
snapshot, an id present both in the cache and in the list never
receives a "deleted" notification, however the list is ordered — and
no id receives two notifications. -/
theorem emoji_sync_partition (eqE : Nat → Nat → Bool) (c : ECache) (l : List RawEmoji)
    (hc : (c.map Prod.fst).Nodup) (hl : (l.map RawEmoji.id).Nodup) :
    (∀ x, x ∈ updatedIds (handleCore eqE c l).1 ↔
        ∃ e ∈ l, e.id = x ∧ ∃ cd, aget c e.id = some cd ∧ eqE cd e.data = false) ∧
    (∀ x, x ∈ createdIds (handleCore eqE c l).1 ↔
        ∃ e ∈ l, e.id = x ∧ aget c e.id = none) ∧
    (∀ x, x ∈ deletedIds (handleCore eqE c l).1 ↔
        (∃ v, aget c x = some v) ∧ ∀ e ∈ l, e.id ≠ x) ∧
    (((handleCore eqE c l).1).map notifId).Nodup := by
  have htr := handleCore_trace eqE c l hl hc
  refine ⟨?_, ?_, ?_, ?_⟩
  · intro x
    rw [htr]
    unfold updatedIds
    rw [List.filterMap_append]
    have h2 := updatedIds_delMap (c.filter (fun p => !(hitBy c l p.1)))
    unfold updatedIds at h2
    rw [h2, List.append_nil]
    exact mem_updatedIds_loopTrace eqE c l x
  · intro x
    rw [htr]
    unfold createdIds
    rw [List.filterMap_append]
    have h2 := createdIds_delMap (c.filter (fun p => !(hitBy c l p.1)))
    unfold createdIds at h2
    rw [h2, List.append_nil]
    exact mem_createdIds_loopTrace eqE c l x
  · intro x
    rw [htr]
    unfold deletedIds
    rw [List.filterMap_append]
    have h1 := deletedIds_loopTrace eqE c l
    have h2 := deletedIds_delMap (c.filter (fun p => !(hitBy c l p.1)))
    unfold deletedIds at h1 h2
    rw [h1, h2, List.nil_append]
    constructor
    · intro hx
      rcases List.mem_map.1 hx with ⟨p, hp, hpx⟩
      rcases List.mem_filter.1 hp with ⟨hpc, hphit⟩
      have hsome : aget c p.1 = some p.2 := aget_mem_of_nodup c p hc hpc
      refine ⟨⟨p.2, hpx ▸ hsome⟩, ?_⟩
      intro e hel hex
      have hhit : hitBy c l p.1 = true := by
        unfold hitBy
        rw [List.any_eq_true]
        refine ⟨e, hel, ?_⟩
        have : e.id = p.1 := hpx ▸ hex
        simp [this, hsome]
      rw [hhit] at hphit
      simp at hphit
    · rintro ⟨⟨v, hv⟩, hids⟩
      have hmem : (x, v) ∈ c := aget_some_mem c x v hv
      apply List.mem_map.2
      refine ⟨(x, v), List.mem_filter.2 ⟨hmem, ?_⟩, rfl⟩
      have : hitBy c l x = false := by
        unfold hitBy
        rw [List.any_eq_false]
        intro e hel
        have : ¬e.id = x := hids e hel
        simp [this]
      simp [this]
  · rw [htr, List.map_append]
    have hdm : ((c.filter (fun p => !(hitBy c l p.1))).map
        (fun p => Notif.deleted p.1 p.2)).map notifId =
        (c.filter (fun p => !(hitBy c l p.1))).map Prod.fst := by
      rw [List.map_map]
      rfl
    rw [hdm, List.nodup_append]
    refine ⟨(loopTrace_ids_sublist eqE c l).nodup hl,
      ((List.filter_sublist c).map Prod.fst).nodup hc, ?_⟩
    intro x hx hx'
    have hxl : x ∈ l.map RawEmoji.id := (loopTrace_ids_sublist eqE c l).subset hx
    rcases List.mem_map.1 hx' with ⟨p, hp, hpx⟩
    rcases List.mem_filter.1 hp with ⟨hpc, hphit⟩
    rcases List.mem_map.1 hxl with ⟨e, hel, hex⟩
    have hsome : aget c p.1 = some p.2 := aget_mem_of_nodup c p hc hpc
    have hhit : hitBy c l p.1 = true := by
      unfold hitBy
      rw [List.any_eq_true]
      refine ⟨e, hel, ?_⟩
      have : e.id = p.1 := by rw [hex, ← hpx]
      simp [this, hsome]
    rw [hhit] at hphit
    simp at hphit

/-- Witness for C1 at a concrete store and payload. -/
theorem emoji_sync_partition_witness :
    (((handleCore (fun a b => a == b) [(some 1, 10), (some 3, 30)]
        [⟨some 1, 11⟩, ⟨some 2, 5⟩]).1).map notifId).Nodup :=
  (emoji_sync_partition (fun a b => a == b) [(some 1, 10), (some 3, 30)]
      [⟨some 1, 11⟩, ⟨some 2, 5⟩] (by decide) (by decide)).2.2.2

/-- Claim C2: Applying the identical complete emoji list twice in
succession yields no notification on the second application, for any
store the first application left in sync with the list: every payload
entry finds its id cached with a representation the equality test
accepts, and every cached entry corresponds to a payload entry. -/
theorem emoji_sync_idempotent (eqE : Nat → Nat → Bool) (c : ECache) (l : List RawEmoji)
    (hl : (l.map RawEmoji.id).Nodup)
    (hc1 : (((handleCore eqE c l).2).map Prod.fst).Nodup)
    (hsync : ∀ e ∈ l, ∃ cd, aget (handleCore eqE c l).2 e.id = some cd ∧ eqE cd e.data = true)
    (hcov : ∀ p ∈ (handleCore eqE c l).2, ∃ e ∈ l, e.id = p.1) :
    (handleCore eqE (handleCore eqE c l).2 l).1 = [] := by
  rw [handleCore_trace eqE (handleCore eqE c l).2 l hl hc1]
  have hloop : loopTrace eqE (handleCore eqE c l).2 l = [] := by
    unfold loopTrace
    rw [List.flatten_eq_nil_iff]
    intro t ht
    rcases List.mem_map.1 ht with ⟨e, hel, rfl⟩
    rcases hsync e hel with ⟨cd, hget, heq⟩
    unfold entryNotif
    rw [hget]
    simp [heq]
  have hdel : ((handleCore eqE c l).2).filter
      (fun p => !(hitBy (handleCore eqE c l).2 l p.1)) = [] := by
    rw [List.filter_eq_nil_iff]
    intro p hp
    rcases hcov p hp with ⟨e, hel, hepid⟩
    have hhit : hitBy (handleCore eqE c l).2 l p.1 = true := by
      unfold hitBy
      rw [List.any_eq_true]
      rcases hsync e hel with ⟨cd, hget, _⟩
      refine ⟨e, hel, ?_⟩
      rw [hepid] at hget
      simp [hepid, hget]
    simp [hhit]
  rw [hloop, hdel]
  rfl

/-- Witness for C2: an initially empty store brought in sync by one
application; the second application is silent. -/
theorem emoji_sync_idempotent_witness :
    (handleCore (fun a b => a == b)
        ((handleCore (fun a b => a == b) [] [⟨some 1, 5⟩]).2) [⟨some 1, 5⟩]).1 = [] :=
  emoji_sync_idempotent (fun a b => a == b) [] [⟨some 1, 5⟩] (by decide) (by decide)
    (by
      intro e he
      rcases List.mem_singleton.1 he with rfl
      exact ⟨5, by decide, by decide⟩)
    (by decide)

/-- Claim C3 counterexample: The notification trace is not of the shape
"all updated, then all created, then all deleted": with cached store
`{1 ↦ 10}` and payload `[2(new), 1(changed)]` the "created" notification
precedes the "updated" one. -/
theorem emoji_sync_order_counterexample :
    ¬((handleCore (fun a b => a == b) [(some 1, 10)] [⟨some 2, 5⟩, ⟨some 1, 11⟩]).1 =
      (handleCore (fun a b => a == b) [(some 1, 10)] [⟨some 2, 5⟩, ⟨some 1, 11⟩]).1.filter
        isUpdatedN ++
      (handleCore (fun a b => a == b) [(some 1, 10)] [⟨some 2, 5⟩, ⟨some 1, 11⟩]).1.filter
        isCreatedN ++
      (handleCore (fun a b => a == b) [(some 1, 10)] [⟨some 2, 5⟩, ⟨some 1, 11⟩]).1.filter
        isDeletedN) := by
  decide

/-- Claim C3 amended: Within one invocation the "updated" and "created"
notifications are emitted interleaved in payload-list order (one per
entry that needs one), and all "deleted" notifications come last,
computed from the pre-loop snapshot; the loop part contains no
"deleted" notification. -/
theorem emoji_sync_order_amended (eqE : Nat → Nat → Bool) (c : ECache) (l : List RawEmoji)
    (hl : (l.map RawEmoji.id).Nodup) (hc : (c.map Prod.fst).Nodup) :
    (handleCore eqE c l).1 =
      loopTrace eqE c l ++
        (c.filter (fun p => !(hitBy c l p.1))).map (fun p => Notif.deleted p.1 p.2) ∧
    (∀ n ∈ loopTrace eqE c l, isDeletedN n = false) := by
  refine ⟨handleCore_trace eqE c l hl hc, ?_⟩
  intro n hn
  unfold loopTrace at hn
  rcases List.mem_flatten.1 hn with ⟨t, ht, hnt⟩
  rcases List.mem_map.1 ht with ⟨e, _, rfl⟩
  unfold entryNotif at hnt
  cases hce : aget c e.id with
  | some cd =>
    rw [hce] at hnt
    by_cases h : eqE cd e.data = true
    · simp [h] at hnt
    · simp only [Bool.not_eq_true] at h
      simp only [h, Bool.false_eq_true, if_false, List.mem_singleton] at hnt
      rw [hnt]
      rfl
  | none =>
    rw [hce] at hnt
    rw [List.mem_singleton] at hnt
    rw [hnt]
    rfl

/-- Witness for the amended C3 at a concrete store and payload. -/
theorem emoji_sync_order_amended_witness :
    (handleCore (fun a b => a == b) [(some 1, 10)] [⟨some 2, 5⟩, ⟨some 1, 11⟩]).1 =
      loopTrace (fun a b => a == b) [(some 1, 10)] [⟨some 2, 5⟩, ⟨some 1, 11⟩] ++
        (([(some 1, 10)] : ECache).filter
          (fun p => !(hitBy [(some 1, 10)] [⟨some 2, 5⟩, ⟨some 1, 11⟩] p.1))).map
          (fun p => Notif.deleted p.1 p.2) :=
  (emoji_sync_order_amended (fun a b => a == b) [(some 1, 10)] [⟨some 2, 5⟩, ⟨some 1, 11⟩]
    (by decide) (by decide)).1

theorem aget_none_of_keys_some (c : ECache) (hkeys : ∀ p ∈ c, p.1.isSome = true) :
    aget c none = none := by
  induction c with
  | nil => rfl
  | cons p rest ih =>
    have hp := hkeys p (List.mem_cons_self _ _)
    have hne : ¬(p.1 = none) := by
      intro h
      rw [h] at hp
      simp at hp
    simp [aget, hne, ih (fun q hq => hkeys q (List.mem_cons_of_mem _ hq))]

theorem notifId_entryNotif (eqE : Nat → Nat → Bool) (c : ECache) (e : RawEmoji) :
    ∀ n ∈ entryNotif eqE c e, notifId n = e.id := by
  intro n hn
  unfold entryNotif at hn
  cases hce : aget c e.id with
  | some cd =>
    rw [hce] at hn
    by_cases h : eqE cd e.data = true
    · simp [h] at hn
    · simp only [Bool.not_eq_true] at h
      simp only [h, Bool.false_eq_true, if_false, List.mem_singleton] at hn
      rw [hn]
      rfl
  | none =>
    rw [hce] at hn
    rw [List.mem_singleton] at hn
    rw [hn]
    rfl

theorem hitBy_filter_someId (c : ECache) (k : EmojiId) (hk : k.isSome = true) :
    ∀ l : List RawEmoji, hitBy c (l.filter (fun e => e.id.isSome)) k = hitBy c l k := by
  intro l
  induction l with
  | nil => rfl
  | cons e rest ih =>
    by_cases he : e.id.isSome = true
    · simp only [List.filter_cons]
      rw [if_pos he]
      unfold hitBy at *
      rw [List.any_cons, List.any_cons, ih]
    · simp only [List.filter_cons]
      rw [if_neg he]
      have hid : e.id = none := by
        cases h : e.id
        · rfl
        · rw [h] at he; simp at he
      have hkne : ¬(e.id = k) := by
        rw [hid]
        intro h
        rw [← h] at hk
        simp at hk
      unfold hitBy at *
      rw [List.any_cons, ih]
      simp [hkne]

theorem loopTrace_filter_someId (eqE : Nat → Nat → Bool) (c : ECache) :
    ∀ l : List RawEmoji,
    (loopTrace eqE c l).filter (fun n => (notifId n).isSome) =
      loopTrace eqE c (l.filter (fun e => e.id.isSome)) := by
  intro l
  induction l with
  | nil => rfl
  | cons e rest ih =>
    unfold loopTrace at *
    rw [List.map_cons, List.flatten_cons, List.filter_append, ih]
    by_cases he : e.id.isSome = true
    · simp only [List.filter_cons]
      rw [if_pos he, List.map_cons, List.flatten_cons]
      have : (entryNotif eqE c e).filter (fun n => (notifId n).isSome) =
          entryNotif eqE c e := by
        apply List.filter_eq_self.2
        intro n hn
        rw [notifId_entryNotif eqE c e n hn]
        exact he
      rw [this]
    · simp only [List.filter_cons]
      rw [if_neg he]
      have hid : e.id = none := by
        cases h : e.id
        · rfl
        · rw [h] at he; simp at he
      have : (entryNotif eqE c e).filter (fun n => (notifId n).isSome) = [] := by
        rw [List.filter_eq_nil_iff]
        intro n hn
        rw [notifId_entryNotif eqE c e n hn, hid]
        simp
      rw [this, List.nil_append]

/-- Claim C6 counterexample: A payload entry with a missing identifier is
not skipped and no diagnostic is reported: with store `{1 ↦ 10}` and
payload `[{id: missing, data: 7}, 1(unchanged)]` the whole emitted
trace is exactly one "created" notification for the malformed entry
(the loop finds no cache hit for the `undefined` id and hands the entry
to the create sub-action). -/
theorem emoji_malformed_counterexample :
    (handleCore (fun a b => a == b) [(some 1, 10)] [⟨none, 7⟩, ⟨some 1, 10⟩]).1 =
      [Notif.created none 7] := by decide

/-- Claim C6 amended: An entry with a missing identifier is not skipped:
provided the store only holds real ids, the entry is treated as
uncached and produces a "created" notification carrying the missing
id; no diagnostic is emitted.  The rest of the batch is unaffected —
the sub-trace of notifications carrying a real id is exactly the trace
of the batch with the malformed entries removed. -/
theorem emoji_malformed_amended (eqE : Nat → Nat → Bool) (c : ECache) (l : List RawEmoji)
    (hl : (l.map RawEmoji.id).Nodup) (hc : (c.map Prod.fst).Nodup)
    (hkeys : ∀ p ∈ c, p.1.isSome = true) :
    (∀ e ∈ l, e.id = none → Notif.created none e.data ∈ (handleCore eqE c l).1) ∧
    ((handleCore eqE c l).1.filter (fun n => (notifId n).isSome) =
      (handleCore eqE c (l.filter (fun e => e.id.isSome))).1) := by
  have hlf : ((l.filter (fun e => e.id.isSome)).map RawEmoji.id).Nodup :=
    ((List.filter_sublist l).map RawEmoji.id).nodup hl
  constructor
  · intro e hel hid
    rw [handleCore_trace eqE c l hl hc, List.mem_append]
    left
    unfold loopTrace
    rw [List.mem_flatten]
    refine ⟨entryNotif eqE c e, List.mem_map_of_mem _ hel, ?_⟩
    unfold entryNotif
    rw [hid, aget_none_of_keys_some c hkeys]
    simp
  · rw [handleCore_trace eqE c l hl hc,
      handleCore_trace eqE c (l.filter (fun e => e.id.isSome)) hlf hc,
      List.filter_append, loopTrace_filter_someId eqE c l]
    have hdel : ((c.filter (fun p => !(hitBy c l p.1))).map
        (fun p => Notif.deleted p.1 p.2)).filter (fun n => (notifId n).isSome) =
        (c.filter (fun p => !(hitBy c l p.1))).map (fun p => Notif.deleted p.1 p.2) := by
      apply List.filter_eq_self.2
      intro n hn
      rcases List.mem_map.1 hn with ⟨p, hp, hpn⟩
      rcases List.mem_filter.1 hp with ⟨hpc, _⟩
      rw [← hpn]
      exact hkeys p hpc
    rw [hdel]
    have hfilt : c.filter (fun p => !(hitBy c l p.1)) =
        c.filter (fun p => !(hitBy c (l.filter (fun e => e.id.isSome)) p.1)) := by
      apply List.filter_congr
      intro p hpc
      rw [hitBy_filter_someId c p.1 (hkeys p hpc) l]
    rw [hfilt]

/-- Witness for the amended C6 at a concrete store and payload
containing a malformed entry. -/
theorem emoji_malformed_amended_witness :
    (handleCore (fun a b => a == b) [(some 1, 10)] [⟨none, 7⟩, ⟨some 1, 10⟩]).1.filter
        (fun n => (notifId n).isSome) =
      (handleCore (fun a b => a == b) [(some 1, 10)]
        (([⟨none, 7⟩, ⟨some 1, 10⟩] : List RawEmoji).filter (fun e => e.id.isSome))).1 :=
  (emoji_malformed_amended (fun a b => a == b) [(some 1, 10)] [⟨none, 7⟩, ⟨some 1, 10⟩]
    (by decide) (by decide) (by decide)).2

/-- Claim C7 counterexample: For a payload whose guild is not cached the
action returns without emitting anything at all — the complete
notification trace is empty, so no diagnostic notification is
surfaced, contrary to the claim. -/
theorem emoji_missing_guild_counterexample :
    emojisUpdateHandle (fun a b => a == b) [] (some 1) [⟨some 2, 5⟩] = ([], []) := by
  decide

/-- Claim C7 amended: If the guild referenced by the payload is not
cached, or is cached without an emoji store, the whole action is a
silent no-op: it emits no notification of any kind (in particular no
diagnostic), mutates no store, and, being a total function, does not
throw. -/
theorem emoji_missing_guild_amended (eqE : Nat → Nat → Bool)
    (guilds : List (EmojiId × Option ECache)) (gid : EmojiId) (emojis : List RawEmoji)
    (h : aget guilds gid = none ∨ aget guilds gid = some none) :
    emojisUpdateHandle eqE guilds gid emojis = ([], guilds) := by
  unfold emojisUpdateHandle
  rcases h with h | h <;> rw [h]

/-- Witness for the amended C7: a cached guild `2` exists but the
payload references guild `1`. -/
theorem emoji_missing_guild_amended_witness :
    emojisUpdateHandle (fun a b => a == b) [(some 2, some [])] (some 1) [⟨some 3, 4⟩] =
      ([], [(some 2, some ([] : ECache))]) :=
  emoji_missing_guild_amended (fun a b => a == b) [(some 2, some [])] (some 1) [⟨some 3, 4⟩]
    (Or.inl (by decide))

theorem cinv_init (o : COpts) (now : Nat) : CInv (initCollector o now) := by
  constructor
  · rfl
  · intro h
    simp [initCollector] at h

theorem cinv_stop (s : CState) (r : String) (h : CInv s) : CInv (stopCollector s r) := by
  unfold stopCollector
  by_cases he : s.ended = true
  · rw [if_pos he]
    exact h
  · rw [if_neg he]
    constructor
    · have h0 : s.endEmits = 0 := by
        have h1 := h.1
        rw [if_neg he] at h1
        exact h1
      simp [h0]
    · intro _
      exact ⟨rfl, rfl⟩

theorem cinv_collectPhase {α : Type} (hk : CHooks α) (o : COpts) (s : CState) (now : Nat)
    (arg : α) (h : CInv s) : CInv (collectPhase hk o s now arg) := by
  unfold collectPhase
  cases hk.handle arg with
  | none => exact h
  | some kv =>
    dsimp only
    by_cases hf : hk.filter arg s.collected = true
    · rw [if_pos hf]
      constructor
      · exact h.1
      · intro he
        refine ⟨(h.2 he).1, ?_⟩
        have hidle := (h.2 he).2
        simp [hidle]
    · rw [if_neg hf]
      exact h

theorem cinv_handleEvent {α : Type} (hk : CHooks α) (o : COpts) (s : CState) (now : Nat)
    (arg : α) (h : CInv s) : CInv (handleEvent hk o s now arg) := by
  unfold handleEvent
  cases hk.postCheck arg with
  | some r => exact cinv_stop _ r (cinv_collectPhase hk o s now arg h)
  | none => exact cinv_collectPhase hk o s now arg h

theorem cinv_fireTime (s : CState) (h : CInv s) : CInv (fireTime s) := by
  unfold fireTime
  by_cases ht : s.timeoutAt.isSome = true
  · rw [if_pos ht]
    exact cinv_stop s "time" h
  · rw [if_neg ht]
    exact h

theorem cinv_fireIdle (s : CState) (h : CInv s) : CInv (fireIdle s) := by
  unfold fireIdle
  by_cases ht : s.idleAt.isSome = true
  · rw [if_pos ht]
    exact cinv_stop s "idle" h
  · rw [if_neg ht]
    exact h

theorem cinv_runOps {α : Type} (hk : CHooks α) (o : COpts) :
    ∀ (ops : List (COp α)) (s : CState), CInv s → CInv (runOps hk o s ops) := by
  intro ops
  induction ops with
  | nil => intro s h; exact h
  | cons op rest ih =>
    intro s h
    unfold runOps
    cases op with
    | ev now arg => exact ih _ (cinv_handleEvent hk o s now arg h)
    | stopCall r => exact ih _ (cinv_stop s r h)
    | ftime => exact ih _ (cinv_fireTime s h)
    | fidle => exact ih _ (cinv_fireIdle s h)

/-- Claim C4: over any sequence of stimuli — event deliveries, explicit
`stop()` calls, timer firings, in any combination — a collector emits
the "end" event at most once, and it has emitted it exactly once
precisely when it has entered the ended state; an ended collector
holds no scheduled timer (both were cancelled on entering the state);
and `stop()` on an already-ended collector is a complete no-op (the
whole state, emission count included, is returned unchanged and no
error can arise, the function being total). -/
theorem collector_end_once {α : Type} (hk : CHooks α) (o : COpts) (ops : List (COp α)) :
    (runOps hk o (initCollector o 0) ops).endEmits ≤ 1 ∧
    ((runOps hk o (initCollector o 0) ops).ended = true ↔
      (runOps hk o (initCollector o 0) ops).endEmits = 1) ∧
    ((runOps hk o (initCollector o 0) ops).ended = true →
      (runOps hk o (initCollector o 0) ops).timeoutAt = none ∧
      (runOps hk o (initCollector o 0) ops).idleAt = none) ∧
    (∀ (s : CState) (r : String), s.ended = true → stopCollector s r = s) := by
  have hinv : CInv (runOps hk o (initCollector o 0) ops) :=
    cinv_runOps hk o ops _ (cinv_init o 0)
  refine ⟨?_, ?_, hinv.2, ?_⟩
  · rw [hinv.1]
    by_cases he : (runOps hk o (initCollector o 0) ops).ended = true
    · rw [if_pos he]
    · rw [if_neg he]
      exact Nat.zero_le 1
  · constructor
    · intro he
      rw [hinv.1, if_pos he]
    · intro h1
      by_cases he : (runOps hk o (initCollector o 0) ops).ended = true
      · exact he
      · rw [hinv.1, if_neg he] at h1
        cases h1
  · intro s r hs
    unfold stopCollector
    rw [if_pos hs]

/-- Witness for C4: a concrete run with a double `stop()` and a late
timer firing still emits "end" once, and `stop` on a concrete ended
state is the identity. -/
theorem collector_end_once_witness :
    (runOps hooksU optsIdle100 (initCollector optsIdle100 0)
        [COp.stopCall "user", COp.stopCall "user", COp.fidle]).endEmits ≤ 1 ∧
    stopCollector endedState "x" = endedState :=
  ⟨(collector_end_once hooksU optsIdle100
      [COp.stopCall "user", COp.stopCall "user", COp.fidle]).1,
   (collector_end_once hooksU optsIdle100 ([] : List (COp Unit))).2.2.2 endedState "x" rfl⟩

theorem collectPhase_ended {α : Type} (hk : CHooks α) (o : COpts) (s : CState) (now : Nat)
    (arg : α) : (collectPhase hk o s now arg).ended = s.ended := by
  unfold collectPhase
  cases hk.handle arg with
  | none => rfl
  | some kv =>
    dsimp only
    by_cases hf : hk.filter arg s.collected = true
    · rw [if_pos hf]
    · rw [if_neg hf]

theorem collectPhase_timeoutAt {α : Type} (hk : CHooks α) (o : COpts) (s : CState)
    (now : Nat) (arg : α) : (collectPhase hk o s now arg).timeoutAt = s.timeoutAt := by
  unfold collectPhase
  cases hk.handle arg with
  | none => rfl
  | some kv =>
    dsimp only
    by_cases hf : hk.filter arg s.collected = true
    · rw [if_pos hf]
    · rw [if_neg hf]

/-- Claim C8: a successful collection on an active collector whose idle
timer is scheduled clears it and schedules a fresh one `options.idle`
from the collection instant; concretely, with `idle = 100` and a
collected item at `t = 90`, the idle deadline becomes `190`, the
collector is still active at every `t < 190` (in particular `t = 150`),
and letting time reach `190` with no further item ends it with reason
`"idle"`. -/
theorem collector_idle_reset {α : Type} (hk : CHooks α) (arg : α) (kv : Nat × Nat)
    (hh : hk.handle arg = some kv) (hf : ∀ col, hk.filter arg col = true)
    (hp : hk.postCheck arg = none) :
    (∀ (o : COpts) (s : CState) (now : Nat), s.idleAt.isSome = true →
        (handleEvent hk o s now arg).idleAt = o.idle.map (fun d => now + d)) ∧
    (handleEvent hk optsIdle100 (initCollector optsIdle100 0) 90 arg).idleAt = some 190 ∧
    (∀ t, t < 190 →
      (runTo (handleEvent hk optsIdle100 (initCollector optsIdle100 0) 90 arg) t).ended
        = false) ∧
    (runTo (handleEvent hk optsIdle100 (initCollector optsIdle100 0) 90 arg) 190).ended
      = true ∧
    (runTo (handleEvent hk optsIdle100 (initCollector optsIdle100 0) 90 arg) 190).endReason
      = some "idle" := by
  have hgen : ∀ (o : COpts) (s : CState) (now : Nat), s.idleAt.isSome = true →
      (handleEvent hk o s now arg).idleAt = o.idle.map (fun d => now + d) := by
    intro o s now hidle
    unfold handleEvent
    rw [hp]
    dsimp only
    unfold collectPhase
    rw [hh]
    dsimp only
    rw [if_pos (hf s.collected)]
    simp [hidle]
  have hidle0 : (initCollector optsIdle100 0).idleAt.isSome = true := by
    rfl
  have f1 : (handleEvent hk optsIdle100 (initCollector optsIdle100 0) 90 arg).idleAt
      = some 190 :=
    hgen optsIdle100 (initCollector optsIdle100 0) 90 hidle0
  have f2 : (handleEvent hk optsIdle100 (initCollector optsIdle100 0) 90 arg).timeoutAt
      = none := by
    unfold handleEvent
    rw [hp, collectPhase_timeoutAt]
    rfl
  have f3 : (handleEvent hk optsIdle100 (initCollector optsIdle100 0) 90 arg).ended
      = false := by
    unfold handleEvent
    rw [hp, collectPhase_ended]
    rfl
  refine ⟨hgen, f1, ?_, ?_, ?_⟩
  · intro t ht
    unfold runTo
    rw [f1, f2]
    have : ¬(190 ≤ t) := by omega
    simp only [if_neg this]
    exact f3
  · unfold runTo
    rw [f1, f2]
    simp only [Nat.le_refl, if_pos]
    unfold stopCollector
    rw [if_neg (by simp [f3])]
  · unfold runTo
    rw [f1, f2]
    simp only [Nat.le_refl, if_pos]
    unfold stopCollector
    rw [if_neg (by simp [f3])]

/-- Witness for C8 with concrete always-collecting hooks. -/
theorem collector_idle_reset_witness :
    (handleEvent hooksU optsIdle100 (initCollector optsIdle100 0) 90 ()).idleAt
      = some 190 :=
  (collector_idle_reset hooksU () (1, 1) rfl (fun _ => rfl) rfl).2.1

/-- Claim C10: `postCheck` runs on every delivered event even when
nothing was collected for it — the subclass `handle` returned null or
the user filter rejected —, so a non-null reason ends the collector on
an event that was never added to the accumulation, which stays
untouched. -/
theorem collector_postcheck_uncollected {α : Type} (hk : CHooks α) (o : COpts)
    (s : CState) (now : Nat) (arg : α) (r : String) (hs : s.ended = false)
    (hnc : hk.handle arg = none ∨ hk.filter arg s.collected = false)
    (hp : hk.postCheck arg = some r) :
    (handleEvent hk o s now arg).ended = true ∧
    (handleEvent hk o s now arg).endReason = some r ∧
    (handleEvent hk o s now arg).collected = s.collected := by
  have hcp : collectPhase hk o s now arg = s := by
    unfold collectPhase
    rcases hnc with h | h
    · rw [h]
    · cases hh : hk.handle arg with
      | none => rfl
      | some kv =>
        dsimp only
        rw [if_neg (by simp [h])]
  unfold handleEvent
  rw [hp]
  dsimp only
  rw [hcp]
  unfold stopCollector
  rw [if_neg (by simp [hs])]
  exact ⟨rfl, rfl, rfl⟩

/-- Witness for C10: hooks that never collect but whose post-check
fires end a fresh collector with the collection left empty. -/
theorem collector_postcheck_uncollected_witness :
    (handleEvent hooksP optsIdle100 (initCollector optsIdle100 0) 0 ()).ended = true :=
  (collector_postcheck_uncollected hooksP optsIdle100 (initCollector optsIdle100 0) 0 ()
    "done" rfl (Or.inl rfl) rfl).1

/-- Claim C5 counterexample: message `5` is cached with content `"old"`,
the raw payload carries content `"new"`, the cache flag is true and the
entity has a patch function (`Message#patch`, which would set the
content to `"new"`), yet `getPayload` returns the cached instance with
content still `"old"` and the store untouched: the patch is not
applied before returning. -/
theorem getPayload_no_patch_counterexample :
    (getPayload [0] [(some 1, 1)]
        [(some 5, ⟨some 1, some 5, some "old", true⟩)]
        ⟨some 5, some 1, none, some "new", true⟩ (some 5) 0 true) =
      (some ⟨some 1, some 5, some "old", true⟩,
       [(some 5, ⟨some 1, some 5, some "old", true⟩)]) ∧
    (patchMessage ⟨some 1, some 5, some "old", true⟩
        ⟨some 5, some 1, none, some "new", true⟩).content = some "new" := by
  constructor
  · rfl
  · rfl

/-- Claim C5 amended: whenever the message id passed to `getPayload` is
present in the store, the cached instance is returned as-is and the
store is untouched — no patch is applied, whatever the cache flag (the
source's patch attempt requires a `_patch` member, which `Message` does
not define, and sits in a branch only reachable when the id argument
itself misses the store); `getMessage` without an event-attached
message delegates to `getPayload` and returns the same cached
instance. -/
theorem getPayload_cached_hit (partials : List Nat) (channels : List (Option Nat × Nat))
    (manager : List (Option Nat × Msg)) (id : Option Nat) (m : Msg)
    (hm : aget manager id = some m) :
    (∀ (data : RawMsg) (pt : Nat) (cache : Bool),
      getPayload partials channels manager data id pt cache = (some m, manager)) ∧
    (∀ (ev : RawEvent) (channelId channelGuildId : Option Nat) (cache : Bool),
      ev.message = none → jsOr ev.message_id ev.id = id →
      getMessage partials channels ev channelId channelGuildId manager cache
        = (some m, manager)) := by
  have hbase : ∀ (data : RawMsg) (pt : Nat) (cache : Bool),
      getPayload partials channels manager data id pt cache = (some m, manager) := by
    intro data pt cache
    unfold getPayload
    dsimp only
    rw [hm]
    rw [if_neg (by simp)]
  refine ⟨hbase, ?_⟩
  intro ev channelId channelGuildId cache hev hid
  unfold getMessage
  rw [hev]
  dsimp only
  rw [hid]
  exact hbase _ partialTypeMESSAGE cache

/-- Witness for the amended C5 at a concrete store. -/
theorem getPayload_cached_hit_witness :
    getPayload [0] [] [(some 5, ⟨none, some 5, some "old", true⟩)]
        ⟨some 5, none, none, some "new", true⟩ (some 5) 0 true =
      (some ⟨none, some 5, some "old", true⟩,
       [(some 5, ⟨none, some 5, some "old", true⟩)]) :=
  (getPayload_cached_hit [0] [] [(some 5, ⟨none, some 5, some "old", true⟩)] (some 5)
      ⟨none, some 5, some "old", true⟩ rfl).1
    ⟨some 5, none, none, some "new", true⟩ 0 true

/-- Claim C9: calling `getPayload` for a message id `M` absent from the
channel's message store, with message partials enabled and the minimal
stub payload `getMessage` builds (id `M`, no content, no author),
returns a freshly constructed stub whose id is `M` and whose `partial`
getter is true, inserts it into the store under `M` exactly when the
cache flag is set (the store is untouched otherwise), and performs no
network access — the embedding is a pure function of the stores. -/
theorem getPayload_partial_stub (partials : List Nat) (channels : List (Option Nat × Nat))
    (manager : List (Option Nat × Msg)) (data : RawMsg) (M : Nat) (pt : Nat) (cache : Bool)
    (hmiss : aget manager (some M) = none)
    (hpt : partials.contains pt = true)
    (hdid : data.id = some M)
    (hcontent : data.content = none)
    (hauthor : data.hasAuthor = false) :
    (getPayload partials channels manager data (some M) pt cache).1 =
      some (buildMessage (aget channels data.channel_id) data) ∧
    (buildMessage (aget channels data.channel_id) data).id = some M ∧
    partialFlag (buildMessage (aget channels data.channel_id) data) = true ∧
    (buildMessage (aget channels data.channel_id) data).content = none ∧
    (buildMessage (aget channels data.channel_id) data).hasAuthor = false ∧
    (cache = true →
      aget (getPayload partials channels manager data (some M) pt cache).2 (some M) =
        some (buildMessage (aget channels data.channel_id) data)) ∧
    (cache = false →
      (getPayload partials channels manager data (some M) pt cache).2 = manager) := by
  have hres : getPayload partials channels manager data (some M) pt cache =
      (some (buildMessage (aget channels data.channel_id) data),
       if cache then
         aset manager (some M) (buildMessage (aget channels data.channel_id) data)
       else manager) := by
    unfold getPayload
    dsimp only
    rw [hmiss]
    rw [if_pos (by simp only [Option.isNone_none, Bool.true_and, hpt])]
    have hj : jsOr (some M) data.id = some M := rfl
    rw [hj, hmiss]
    dsimp only
    have hkey : jsOr (some M) (buildMessage (aget channels data.channel_id) data).id
        = some M := rfl
    rw [hkey]
  refine ⟨?_, ?_, ?_, ?_, ?_, ?_, ?_⟩
  · rw [hres]
  · show data.id = some M
    exact hdid
  · unfold partialFlag buildMessage
    rw [hcontent]
    rfl
  · unfold buildMessage
    rw [hcontent]
  · show data.hasAuthor = false
    exact hauthor
  · intro hcache
    rw [hres]
    dsimp only
    rw [if_pos hcache]
    exact aget_aset_self manager (some M) _
  · intro hcache
    rw [hres]
    dsimp only
    rw [if_neg (by simp [hcache])]

/-- Witness for C9: id `7` absent from an empty store, partials
enabled, cache set. -/
theorem getPayload_partial_stub_witness :
    (getPayload [0] [] [] ⟨some 7, none, none, none, false⟩ (some 7) 0 true).1 =
      some (buildMessage (aget ([] : List (Option Nat × Nat)) none)
        ⟨some 7, none, none, none, false⟩) :=
  (getPayload_partial_stub [0] [] [] ⟨some 7, none, none, none, false⟩ 7 0 true
    rfl rfl rfl rfl rfl).1
